import Mathlib

/-!
Shallow embedding of the CatBoost feature-quantization engine
(catboost/libs/data_new/quantization.cpp) and proofs about it.

Modelling conventions:
* A raw float value is either the NaN sentinel or a finite float.
  Finite floats are modelled by their value as an integer key, except
  that negative zero is kept distinct from positive zero (the two are
  value-equal but bit-distinct, which is what the negative-zero
  normalization step in CalcBordersAndNanMode is about).
* `std::numeric_limits<float>::max()` is the exact integer
  2^128 - 2^104 and `lowest()` is its negation.
* Fallible code (CB_ENSURE / CB_ENSURE_INTERNAL / Y_VERIFY) is modelled
  with `Except QErr`.  `CB_ENSURE` failures of the kind the spec calls
  `InvalidConfiguration` map to `QErr.invalidConfiguration`;
  `CB_ENSURE_INTERNAL` and `Y_VERIFY` failures map to
  `QErr.internalConsistency`.
-/

namespace CatBoostQ

/-- A finite float value: either negative zero or a value keyed by an
integer (`fin 0` is positive zero). -/
inductive BFloat where
  | negZero
  | fin (n : Int)
deriving DecidableEq

/-- The value of a finite float for ordering and comparison purposes:
negative zero compares equal to positive zero. -/
def BFloat.key : BFloat → Int
  | .negZero => 0
  | .fin n => n

/-- A raw float value: `none` is the NaN sentinel. -/
abbrev FloatV := Option BFloat

/-- The integer key of `std::numeric_limits<float>::max()`. -/
def floatMax : Int := 2 ^ 128 - 2 ^ 104

/-- The integer key of `std::numeric_limits<float>::lowest()`. -/
def floatLowest : Int := -(2 ^ 128 - 2 ^ 104)

/-- Missing-value (NaN) handling mode (ENanMode). -/
inductive ENanMode where
  | Forbidden
  | Min
  | Max
deriving DecidableEq

/-- Error kinds, following the spec taxonomy: `invalidConfiguration`
for user-facing CB_ENSURE failures, `internalConsistency` for
CB_ENSURE_INTERNAL / Y_VERIFY failures. -/
inductive QErr where
  | invalidConfiguration
  | internalConsistency
deriving DecidableEq

/-- Float-feature binarization options (NanMode is the configured
missing-value policy). -/
structure TBinarizationOptions where
  nanMode : ENanMode
  borderCount : Nat

/-- Whether the value list contains the NaN sentinel. -/
def hasNans (vals : List FloatV) : Bool :=
  vals.any Option.isNone

/-- The negative-zero normalization step of CalcBordersAndNanMode:
if the border set contains -0.0, erase it and insert +0.0 (set insert:
a no-op when +0.0 is already a member).  The THashSet of borders is
modelled by a duplicate-free list. -/
def normalizeNegZeroBorders (s : List BFloat) : List BFloat :=
  if BFloat.negZero ∈ s then
    if BFloat.fin 0 ∈ s.erase BFloat.negZero then s.erase BFloat.negZero
    else BFloat.fin 0 :: s.erase BFloat.negZero
  else s

/-- The `borders->assign(borderSet.begin(), borderSet.end()); Sort(...)`
step: the float values of the (normalized) border set, sorted
ascending. -/
def sortedBorderKeys (s : List BFloat) : List Int :=
  List.insertionSort (· ≤ ·) ((normalizeNegZeroBorders s).map BFloat.key)

/-- The effective NaN mode computed by CalcBordersAndNanMode: the
configured policy if NaNs were observed, else Forbidden. -/
def effectiveNanMode (opts : TBinarizationOptions) (vals : List FloatV) : ENanMode :=
  if hasNans vals then opts.nanMode else ENanMode.Forbidden

/-- The full border list computed by CalcBordersAndNanMode before the
Y_VERIFY size check: sorted deduplicated thresholds over the finite
values (via the BestSplit strategy), with the extremal sentinel
prepended / appended according to the effective NaN mode.
`bestSplit` is the grid_creator BestSplit strategy, passed as a
parameter (it lives outside this translation unit). -/
def computedBorders (bestSplit : List BFloat → Nat → List BFloat)
    (opts : TBinarizationOptions) (vals : List FloatV) : List Int :=
  let base := sortedBorderKeys (bestSplit (vals.filterMap id) opts.borderCount)
  match effectiveNanMode opts vals with
  | ENanMode.Min => floatLowest :: base
  | ENanMode.Max => base ++ [floatMax]
  | ENanMode.Forbidden => base

/-- CalcBordersAndNanMode: partitions the subset values into finite and
NaN, fails with a user-facing error if NaNs are present under the
Forbidden policy, computes the effective NaN mode and the border list,
and fails with an internal error (Y_VERIFY) if the border count does
not stay below 256. -/
def calcBordersAndNanMode (bestSplit : List BFloat → Nat → List BFloat)
    (opts : TBinarizationOptions) (vals : List FloatV) :
    Except QErr (ENanMode × List Int) :=
  if opts.nanMode = ENanMode.Forbidden ∧ hasNans vals then
    Except.error QErr.invalidConfiguration
  else if (computedBorders bestSplit opts vals).length < 256 then
    Except.ok (effectiveNanMode opts vals, computedBorders bestSplit opts vals)
  else
    Except.error QErr.internalConsistency

/-! ### Helper lemmas about the border pipeline -/

theorem negZero_not_mem_normalize (s : List BFloat) (hs : s.Nodup) :
    BFloat.negZero ∉ normalizeNegZeroBorders s := by
  unfold normalizeNegZeroBorders
  split
  case isTrue hmem =>
    split
    case isTrue h0 => exact hs.not_mem_erase
    case isFalse h0 =>
      intro h
      rcases List.mem_cons.mp h with h | h
      · simp at h
      · exact hs.not_mem_erase h
  case isFalse hmem => exact hmem

theorem normalize_nodup (s : List BFloat) (hs : s.Nodup) :
    (normalizeNegZeroBorders s).Nodup := by
  unfold normalizeNegZeroBorders
  split
  case isTrue hmem =>
    split
    case isTrue h0 => exact hs.erase _
    case isFalse h0 => exact List.nodup_cons.mpr ⟨h0, hs.erase _⟩
  case isFalse hmem => exact hs

theorem mem_normalize {s : List BFloat} {x : BFloat}
    (hx : x ∈ normalizeNegZeroBorders s) : x ∈ s ∨ x = BFloat.fin 0 := by
  unfold normalizeNegZeroBorders at hx
  split at hx
  case isTrue hmem =>
    split at hx
    case isTrue h0 => exact Or.inl (List.mem_of_mem_erase hx)
    case isFalse h0 =>
      rcases List.mem_cons.mp hx with h | h
      · exact Or.inr h
      · exact Or.inl (List.mem_of_mem_erase h)
  case isFalse hmem => exact Or.inl hx

theorem sortedBorderKeys_sorted (s : List BFloat) :
    (sortedBorderKeys s).Sorted (· ≤ ·) :=
  List.sorted_insertionSort _ _

theorem sortedBorderKeys_nodup (s : List BFloat) (hs : s.Nodup) :
    (sortedBorderKeys s).Nodup := by
  have hperm := List.perm_insertionSort (α := Int) (· ≤ ·)
    ((normalizeNegZeroBorders s).map BFloat.key)
  refine hperm.nodup_iff.mpr ?_
  refine List.Nodup.map_on ?_ (normalize_nodup s hs)
  intro x hx y hy hkey
  have hxn : x ≠ BFloat.negZero := fun h => negZero_not_mem_normalize s hs (h ▸ hx)
  have hyn : y ≠ BFloat.negZero := fun h => negZero_not_mem_normalize s hs (h ▸ hy)
  cases x with
  | negZero => exact absurd rfl hxn
  | fin a =>
    cases y with
    | negZero => exact absurd rfl hyn
    | fin b =>
      simp only [BFloat.key] at hkey
      rw [hkey]

theorem sortedBorderKeys_sorted_lt (s : List BFloat) (hs : s.Nodup) :
    (sortedBorderKeys s).Sorted (· < ·) :=
  (sortedBorderKeys_sorted s).lt_of_le (sortedBorderKeys_nodup s hs)

theorem mem_sortedBorderKeys {s : List BFloat} {x : Int}
    (hx : x ∈ sortedBorderKeys s) :
    ∃ b, (b ∈ s ∨ b = BFloat.fin 0) ∧ BFloat.key b = x := by
  rw [sortedBorderKeys, List.mem_insertionSort] at hx
  rcases List.mem_map.mp hx with ⟨b, hb, hk⟩
  exact ⟨b, mem_normalize hb, hk⟩

theorem sortedBorderKeys_bounds {s : List BFloat}
    (hrange : ∀ b ∈ s, floatLowest < b.key ∧ b.key < floatMax) :
    ∀ x ∈ sortedBorderKeys s, floatLowest < x ∧ x < floatMax := by
  intro x hx
  rcases mem_sortedBorderKeys hx with ⟨b, hb | hb, hk⟩
  · exact hk ▸ hrange b hb
  · subst hb
    rw [← hk]
    constructor
    · norm_num [floatLowest, BFloat.key]
    · norm_num [floatMax, BFloat.key]

theorem computedBorders_eq (bestSplit : List BFloat → Nat → List BFloat)
    (opts : TBinarizationOptions) (vals : List FloatV) :
    computedBorders bestSplit opts vals =
      match effectiveNanMode opts vals with
      | ENanMode.Min =>
          floatLowest :: sortedBorderKeys (bestSplit (vals.filterMap id) opts.borderCount)
      | ENanMode.Max =>
          sortedBorderKeys (bestSplit (vals.filterMap id) opts.borderCount) ++ [floatMax]
      | ENanMode.Forbidden =>
          sortedBorderKeys (bestSplit (vals.filterMap id) opts.borderCount) := rfl

theorem calc_ok_inv {bestSplit : List BFloat → Nat → List BFloat}
    {opts : TBinarizationOptions} {vals : List FloatV} {m : ENanMode} {bs : List Int}
    (h : calcBordersAndNanMode bestSplit opts vals = Except.ok (m, bs)) :
    ¬(opts.nanMode = ENanMode.Forbidden ∧ hasNans vals = true) ∧
    m = effectiveNanMode opts vals ∧ bs = computedBorders bestSplit opts vals ∧
    bs.length < 256 := by
  unfold calcBordersAndNanMode at h
  split at h
  case isTrue hc => cases h
  case isFalse hc =>
    split at h
    case isTrue hl =>
      injection h with h'
      rw [Prod.mk.injEq] at h'
      obtain ⟨h1, h2⟩ := h'
      subst h1
      subst h2
      exact ⟨hc, rfl, rfl, hl⟩
    case isFalse hl => cases h

theorem sorted_lt_concat {l : List Int} {a : Int} (hl : l.Sorted (· < ·))
    (ha : ∀ x ∈ l, x < a) : (l ++ [a]).Sorted (· < ·) := by
  refine List.pairwise_append.mpr ⟨hl, List.pairwise_singleton _ _, ?_⟩
  intro x hx y hy
  rw [List.mem_singleton] at hy
  subst hy
  exact ha x hx

/-! ### Claim theorems for the border calculator -/

/-- C1: CalcBordersAndNanMode fails with the user-facing
InvalidConfiguration error when a NaN is observed in the subset and the
configured policy is Forbidden; when no NaN is observed the effective
mode is Forbidden regardless of the configured policy; otherwise the
effective mode equals the configured policy. -/
theorem c1_nan_policy (bestSplit : List BFloat → Nat → List BFloat)
    (opts : TBinarizationOptions) (vals : List FloatV) :
    (hasNans vals = true → opts.nanMode = ENanMode.Forbidden →
      calcBordersAndNanMode bestSplit opts vals = Except.error QErr.invalidConfiguration)
    ∧ (hasNans vals = false → ∀ m bs,
        calcBordersAndNanMode bestSplit opts vals = Except.ok (m, bs) →
        m = ENanMode.Forbidden)
    ∧ (hasNans vals = true → opts.nanMode ≠ ENanMode.Forbidden → ∀ m bs,
        calcBordersAndNanMode bestSplit opts vals = Except.ok (m, bs) →
        m = opts.nanMode) := by
  refine ⟨?_, ?_, ?_⟩
  · intro h1 h2
    unfold calcBordersAndNanMode
    exact if_pos ⟨h2, h1⟩
  · intro h m bs hok
    obtain ⟨_, rfl, _, _⟩ := calc_ok_inv hok
    simp [effectiveNanMode, h]
  · intro h1 h2 m bs hok
    obtain ⟨_, rfl, _, _⟩ := calc_ok_inv hok
    simp [effectiveNanMode, h1]

/-- Witness for C1 at a concrete input: one NaN value under the
Forbidden policy yields the InvalidConfiguration error. -/
theorem c1_nan_policy_witness :
    calcBordersAndNanMode (fun _ _ => []) ⟨ENanMode.Forbidden, 5⟩ [none] =
      Except.error QErr.invalidConfiguration :=
  (c1_nan_policy (fun _ _ => []) ⟨ENanMode.Forbidden, 5⟩ [none]).1 rfl rfl

/-- C3: the border list computed by CalcBordersAndNanMode is
deduplicated, sorted strictly increasing (negative zero having been
normalized to positive zero), with the lowest representable float
prepended in Min mode and the largest appended in Max mode.  The
hypotheses state what the THashSet returned by BestSplit guarantees:
its elements are distinct, and thresholds built from finite input
values lie strictly between lowest() and max(). -/
theorem c3_borders_strictly_increasing
    (bestSplit : List BFloat → Nat → List BFloat) (opts : TBinarizationOptions)
    (vals : List FloatV) (m : ENanMode) (bs : List Int)
    (hnodup : (bestSplit (vals.filterMap id) opts.borderCount).Nodup)
    (hrange : ∀ b ∈ bestSplit (vals.filterMap id) opts.borderCount,
      floatLowest < b.key ∧ b.key < floatMax)
    (hok : calcBordersAndNanMode bestSplit opts vals = Except.ok (m, bs)) :
    bs.Sorted (· < ·) ∧ bs.Nodup ∧
    (m = ENanMode.Min → bs.head? = some floatLowest) ∧
    (m = ENanMode.Max → bs.getLast? = some floatMax) := by
  obtain ⟨_, rfl, rfl, _⟩ := calc_ok_inv hok
  have hb_sorted := sortedBorderKeys_sorted_lt (bestSplit (vals.filterMap id) opts.borderCount) hnodup
  have hb_bounds := sortedBorderKeys_bounds hrange
  rw [computedBorders_eq]
  cases heff : effectiveNanMode opts vals
  case Forbidden =>
    refine ⟨hb_sorted, hb_sorted.nodup, ?_, ?_⟩ <;> intro h <;> simp at h
  case Min =>
    have hsorted : (floatLowest ::
        sortedBorderKeys (bestSplit (vals.filterMap id) opts.borderCount)).Sorted (· < ·) :=
      List.sorted_cons.mpr ⟨fun x hx => (hb_bounds x hx).1, hb_sorted⟩
    refine ⟨hsorted, hsorted.nodup, fun _ => rfl, ?_⟩
    intro h
    simp at h
  case Max =>
    have hsorted : (sortedBorderKeys (bestSplit (vals.filterMap id) opts.borderCount) ++
        [floatMax]).Sorted (· < ·) :=
      sorted_lt_concat hb_sorted (fun x hx => (hb_bounds x hx).2)
    refine ⟨hsorted, hsorted.nodup, ?_, fun _ => List.getLast?_concat _⟩
    intro h
    simp at h

set_option maxRecDepth 8000 in
/-- Witness for C3 at a concrete input: the BestSplit set contains a
negative zero, a positive zero and the value 2; with one NaN under the
Min policy the final border list is the strictly increasing
[lowest, 0, 2] headed by the lowest representable float. -/
theorem c3_borders_strictly_increasing_witness :
    ([floatLowest, 0, 2] : List Int).Sorted (· < ·) ∧
    ([floatLowest, 0, 2] : List Int).Nodup ∧
    (ENanMode.Min = ENanMode.Min →
      ([floatLowest, 0, 2] : List Int).head? = some floatLowest) ∧
    (ENanMode.Min = ENanMode.Max →
      ([floatLowest, 0, 2] : List Int).getLast? = some floatMax) :=
  c3_borders_strictly_increasing
    (fun _ _ => [BFloat.negZero, BFloat.fin 0, BFloat.fin 2]) ⟨ENanMode.Min, 5⟩
    [none, some (BFloat.fin 1)] ENanMode.Min [floatLowest, 0, 2]
    (by decide) (by decide) (by rfl)

/-- C6: a successful CalcBordersAndNanMode always returns fewer than
256 borders; when the computed border list (including the optional
extremal threshold) reaches 256 and the NaN-policy check passed, the
function fails with the internal-consistency error kind (Y_VERIFY),
which is distinct from the user-facing configuration error kind. -/
theorem c6_border_count_limit (bestSplit : List BFloat → Nat → List BFloat)
    (opts : TBinarizationOptions) (vals : List FloatV) :
    (∀ m bs, calcBordersAndNanMode bestSplit opts vals = Except.ok (m, bs) →
      bs.length < 256)
    ∧ (¬(opts.nanMode = ENanMode.Forbidden ∧ hasNans vals = true) →
        256 ≤ (computedBorders bestSplit opts vals).length →
        calcBordersAndNanMode bestSplit opts vals = Except.error QErr.internalConsistency
        ∧ QErr.internalConsistency ≠ QErr.invalidConfiguration) := by
  constructor
  · intro m bs hok
    exact (calc_ok_inv hok).2.2.2
  · intro hc hlen
    refine ⟨?_, by decide⟩
    unfold calcBordersAndNanMode
    rw [if_neg hc, if_neg (not_lt.mpr hlen)]

/-- A BestSplit stub returning 256 distinct thresholds, used to
exercise the 256-border ceiling. -/
def oversizedSplit : List BFloat → Nat → List BFloat := fun _ _ =>
  (List.range 256).map (fun n => BFloat.fin (Int.ofNat n))

/-- Witness for C6 at a concrete input: a 256-threshold BestSplit
result makes CalcBordersAndNanMode fail with the internal-consistency
error kind. -/
theorem c6_border_count_limit_witness :
    calcBordersAndNanMode oversizedSplit ⟨ENanMode.Min, 5⟩ [] =
      Except.error QErr.internalConsistency
    ∧ QErr.internalConsistency ≠ QErr.invalidConfiguration := by
  refine (c6_border_count_limit oversizedSplit ⟨ENanMode.Min, 5⟩ []).2 (by decide) ?_
  have hmem : BFloat.negZero ∉ oversizedSplit [] 5 := by simp [oversizedSplit]
  have hnorm : normalizeNegZeroBorders (oversizedSplit [] 5) = oversizedSplit [] 5 := by
    unfold normalizeNegZeroBorders
    rw [if_neg hmem]
  have hlen : (sortedBorderKeys (oversizedSplit [] 5)).length = 256 := by
    rw [sortedBorderKeys, hnorm, List.length_insertionSort, List.length_map]
    show ((List.range 256).map (fun n => BFloat.fin (Int.ofNat n))).length = 256
    rw [List.length_map, List.length_range]
  show 256 ≤ (computedBorders oversizedSplit ⟨ENanMode.Min, 5⟩ []).length
  have heq : computedBorders oversizedSplit ⟨ENanMode.Min, 5⟩ [] =
      sortedBorderKeys (oversizedSplit [] 5) := rfl
  rw [heq, hlen]

/-! ### Subset selection for building borders (GetSubsetForBuildBorders) -/

/-- Order state of the source objects (EObjectsOrder). -/
inductive EObjectsOrder where
  | Ordered
  | RandomShuffled
deriving DecidableEq

/-- A subset indexing, modelled as the list of physical indices in
logical order.  `Compose(src, idx)` maps each logical position of
`idx` through `src`. -/
def composeSubset (src idx : List Nat) : List Nat :=
  idx.map (fun j => src.getD j 0)

/-- std::swap of two positions of an index array. -/
def swapL (l : List Nat) (i j : Nat) : List Nat :=
  (l.set i (l.getD j 0)).set j (l.getD i 0)

/-- The partial reservoir-style selection of the non-CPU-compatible
branch: `sampleSize` swaps of position `i` with a random position in
`[i, objectCount)`.  The random source is abstracted as `rng`, where
`rng i n` models `rand->Uniform(i, n)`. -/
def reservoirSwapSelect (rng : Nat → Nat → Nat) (sampleSize n : Nat) (l : List Nat) :
    List Nat :=
  (List.range sampleSize).foldl (fun acc i => swapL acc i (rng i n)) l

/-- Modelled from the spec: `Shuffle` from util/random/shuffle.h is not
under src; the spec describes it as a full Fisher-Yates shuffle of the
whole index array driven by the same random source. -/
def fullShuffle (rng : Nat → Nat → Nat) (l : List Nat) : List Nat :=
  (List.range l.length).foldl (fun acc i => swapL acc i (rng i l.length)) l

/-- GetSubsetForBuildBorders.  `sampleSize` abstracts the value of
GetSampleSizeForBorderSelectionType (declared outside src);
`needToCalcBorders` abstracts NeedToCalcBorders on the metadata. -/
def getSubsetForBuildBorders (needToCalcBorders : Bool) (src : List Nat)
    (srcObjectsOrder : EObjectsOrder) (sampleSize : Nat)
    (cpuCompatibilityShuffleOverFullData : Bool) (rng : Nat → Nat → Nat) :
    Option (List Nat) :=
  if needToCalcBorders then
    if sampleSize < src.length then
      if srcObjectsOrder = EObjectsOrder.RandomShuffled then
        some (composeSubset src (List.range sampleSize))
      else
        some (composeSubset src
          ((if cpuCompatibilityShuffleOverFullData then
              fullShuffle rng (List.range src.length)
            else
              reservoirSwapSelect rng sampleSize src.length
                (List.range src.length)).take sampleSize))
    else none
  else none

theorem swapL_length (l : List Nat) (i j : Nat) : (swapL l i j).length = l.length := by
  simp [swapL]

theorem foldl_swapL_length (g : Nat → Nat) (is : List Nat) :
    ∀ l : List Nat, (is.foldl (fun acc i => swapL acc i (g i)) l).length = l.length := by
  induction is with
  | nil => intro l; rfl
  | cons i is ih =>
    intro l
    rw [List.foldl_cons, ih, swapL_length]

/-- C2: when the sample size covers the whole column no subsampling is
applied; a randomly shuffled source yields exactly the first
`sampleSize` logical rows; every produced subset has exactly
`sampleSize` elements; and every produced subset factors through the
subset indexing already active on the source column. -/
theorem c2_subset_selection (src : List Nat) (order : EObjectsOrder)
    (sampleSize : Nat) (shuffleFull : Bool) (rng : Nat → Nat → Nat) :
    (src.length ≤ sampleSize →
      getSubsetForBuildBorders true src order sampleSize shuffleFull rng = none)
    ∧ (sampleSize < src.length → order = EObjectsOrder.RandomShuffled →
      getSubsetForBuildBorders true src order sampleSize shuffleFull rng =
        some ((List.range sampleSize).map (fun i => src.getD i 0)))
    ∧ (sampleSize < src.length → ∀ l,
      getSubsetForBuildBorders true src order sampleSize shuffleFull rng = some l →
      l.length = sampleSize)
    ∧ (∀ l, getSubsetForBuildBorders true src order sampleSize shuffleFull rng = some l →
      ∃ idx : List Nat, l = composeSubset src idx) := by
  refine ⟨?_, ?_, ?_, ?_⟩
  · intro h
    unfold getSubsetForBuildBorders
    rw [if_pos rfl, if_neg (not_lt.mpr h)]
  · intro h horder
    unfold getSubsetForBuildBorders
    rw [if_pos rfl, if_pos h, if_pos horder]
    rfl
  · intro h l hsome
    unfold getSubsetForBuildBorders at hsome
    rw [if_pos rfl, if_pos h] at hsome
    have hperm : (if shuffleFull then fullShuffle rng (List.range src.length)
        else reservoirSwapSelect rng sampleSize src.length
          (List.range src.length)).length = src.length := by
      split
      · exact (foldl_swapL_length _ _ _).trans (List.length_range _)
      · exact (foldl_swapL_length _ _ _).trans (List.length_range _)
    split at hsome
    · injection hsome with h'
      subst h'
      simp [composeSubset]
    · injection hsome with h'
      subst h'
      simp [composeSubset, hperm, Nat.min_eq_left (Nat.le_of_lt h)]
  · intro l hsome
    unfold getSubsetForBuildBorders at hsome
    rw [if_pos rfl] at hsome
    split at hsome
    · split at hsome
      · injection hsome with h'
        exact ⟨_, h'.symm⟩
      · injection hsome with h'
        exact ⟨_, h'.symm⟩
    · cases hsome

/-- Witness for C2 at a concrete input: a shuffled 3-row column with
sample size 2 yields its first two logical rows. -/
theorem c2_subset_selection_witness :
    getSubsetForBuildBorders true [5, 6, 7] EObjectsOrder.RandomShuffled 2 false
        (fun _ _ => 0) = some [5, 6] :=
  ((c2_subset_selection [5, 6, 7] EObjectsOrder.RandomShuffled 2 false
    (fun _ _ => 0)).2.1 (by decide) rfl).trans (by rfl)

/-! ### Per-feature processing (ProcessFloatFeature / ProcessCatFeature) -/

/-- Per-float-feature slice of the shared TQuantizedFeaturesInfo
metadata: optional NaN mode, optional border list, and the
FloatFeaturesAllowNansInTestOnly flag. -/
structure TQuantizedFeaturesInfoEntry where
  nanModeOpt : Option ENanMode
  bordersOpt : Option (List Int)
  allowNansInTestOnly : Bool
deriving DecidableEq

/-- Quantized float feature holder variant: external lazy view
(TExternalFloatValuesHolder) or materialized compressed array
(TQuantizedFloatValuesHolder) with its bit width and codes. -/
inductive QFloatHolder where
  | external
  | quantized (bitsPerKey : Nat) (codes : List Nat)
deriving DecidableEq

/-- Quantized categorical feature holder variant. -/
inductive QCatHolder where
  | external
  | quantized (bitsPerKey : Nat) (codes : List Nat)
deriving DecidableEq

/-- Modelled from the spec: the per-value quantizer (the Quantize
utility of catboost/libs/quantization is not under src).  A missing
value requires allowNans, else the user-facing error is raised; an
allowed missing value maps to the extremal bucket for the mode; a
finite value maps to the count of borders at or below it. -/
def quantizeValue (allowNans : Bool) (nanMode : ENanMode) (borders : List Int)
    (v : FloatV) : Except QErr Nat :=
  match v with
  | none =>
    if allowNans then
      Except.ok (if nanMode = ENanMode.Min then 0 else borders.length)
    else
      Except.error QErr.invalidConfiguration
  | some b => Except.ok (borders.countP (fun t => decide (t ≤ b.key)))

/-- Quantization of a whole column, failing on the first bad value. -/
def quantizeColumn (allowNans : Bool) (nanMode : ENanMode) (borders : List Int) :
    List FloatV → Except QErr (List Nat)
  | [] => Except.ok []
  | v :: vs =>
    match quantizeValue allowNans nanMode borders v with
    | Except.error e => Except.error e
    | Except.ok c =>
      match quantizeColumn allowNans nanMode borders vs with
      | Except.error e => Except.error e
      | Except.ok cs => Except.ok (c :: cs)

/-- The borders-acquisition step of ProcessFloatFeature: reuse the
stored NaN mode and borders when present, else compute them; the Bool
records whether borders were freshly calculated in this call. -/
def floatBordersStep (bestSplit : List BFloat → Nat → List BFloat)
    (binOpts : TBinarizationOptions) (info : TQuantizedFeaturesInfoEntry)
    (subsetVals : List FloatV) : Except QErr (ENanMode × List Int × Bool) :=
  if info.nanModeOpt.isNone || info.bordersOpt.isNone then
    match calcBordersAndNanMode bestSplit binOpts subsetVals with
    | Except.error e => Except.error e
    | Except.ok (m, bs) => Except.ok (m, bs, true)
  else
    Except.ok (info.nanModeOpt.getD ENanMode.Forbidden, info.bordersOpt.getD [], false)

/-- The metadata write-back at the end of ProcessFloatFeature:
SetNanMode when the mode was calculated here, SetBorders when a
non-empty border list was calculated here. -/
def writeBackInfo (info : TQuantizedFeaturesInfoEntry) (calculateNanMode : Bool)
    (nanMode : ENanMode) (borders : List Int) (fresh : Bool) :
    TQuantizedFeaturesInfoEntry :=
  { info with
    nanModeOpt := if calculateNanMode then some nanMode else info.nanModeOpt
    bordersOpt := if fresh && !borders.isEmpty then some borders else info.bordersOpt }

/-- ProcessFloatFeature: checks the NaN-mode/borders presence
invariant (CB_ENSURE_INTERNAL), acquires borders, then either builds
the external lazy view (GPU-only format and retained source) or
materializes an 8-bit compressed array via the quantizer, and finally
writes freshly computed metadata back. -/
def processFloatFeature (bestSplit : List BFloat → Nat → List BFloat)
    (binOpts : TBinarizationOptions) (cpuCompatibleFormat clearSrcData : Bool)
    (info : TQuantizedFeaturesInfoEntry) (subsetVals srcVals : List FloatV) :
    Except QErr (QFloatHolder × TQuantizedFeaturesInfoEntry) :=
  if info.nanModeOpt.isNone = info.bordersOpt.isNone then
    match floatBordersStep bestSplit binOpts info subsetVals with
    | Except.error e => Except.error e
    | Except.ok (nanMode, borders, fresh) =>
      if !cpuCompatibleFormat && !clearSrcData then
        Except.ok (QFloatHolder.external,
          writeBackInfo info info.nanModeOpt.isNone nanMode borders fresh)
      else
        match quantizeColumn (decide (nanMode ≠ ENanMode.Forbidden) || info.allowNansInTestOnly)
            nanMode borders srcVals with
        | Except.error e => Except.error e
        | Except.ok codes =>
          Except.ok (QFloatHolder.quantized 8 codes,
            writeBackInfo info info.nanModeOpt.isNone nanMode borders fresh)
  else
    Except.error QErr.internalConsistency

/-- Modelled from the spec: the perfect-hash lookup of one token
(TCatFeaturesPerfectHashHelper is not under src): an unseen token gets
the next sequential dense code, a seen token keeps its code. -/
def phLookupOrAdd (tbl : List Nat) (tok : Nat) : List Nat × Nat :=
  if tbl.indexOf tok < tbl.length then (tbl, tbl.indexOf tok)
  else (tbl ++ [tok], tbl.length)

/-- Modelled from the spec: UpdatePerfectHashAndMaybeQuantize over a
column, threading the growing table in first-seen order and producing
the code of every value. -/
def updatePerfectHashAndMaybeQuantize : List Nat → List Nat → List Nat × List Nat
  | tbl, [] => (tbl, [])
  | tbl, v :: vs =>
    ((updatePerfectHashAndMaybeQuantize (phLookupOrAdd tbl v).1 vs).1,
     (phLookupOrAdd tbl v).2 :: (updatePerfectHashAndMaybeQuantize (phLookupOrAdd tbl v).1 vs).2)

/-- ProcessCatFeature: always updates the perfect hash; stores an
external lazy view under the GPU-only retained-source combination,
else a 32-bit compressed array of codes. -/
def processCatFeature (cpuCompatibleFormat clearSrcData : Bool) (tbl : List Nat)
    (srcVals : List Nat) : QCatHolder × List Nat :=
  if !cpuCompatibleFormat && !clearSrcData then
    (QCatHolder.external, (updatePerfectHashAndMaybeQuantize tbl srcVals).1)
  else
    (QCatHolder.quantized 32 (updatePerfectHashAndMaybeQuantize tbl srcVals).2,
     (updatePerfectHashAndMaybeQuantize tbl srcVals).1)

theorem quantizeColumn_allowNans_ok (nanMode : ENanMode) (borders : List Int) :
    ∀ vals : List FloatV, ∃ cs, quantizeColumn true nanMode borders vals = Except.ok cs := by
  intro vals
  induction vals with
  | nil => exact ⟨[], rfl⟩
  | cons v vs ih =>
    obtain ⟨cs, hcs⟩ := ih
    cases v with
    | none =>
      exact ⟨(if nanMode = ENanMode.Min then 0 else borders.length) :: cs,
        by simp [quantizeColumn, quantizeValue, hcs]⟩
    | some b =>
      exact ⟨borders.countP (fun t => decide (t ≤ b.key)) :: cs,
        by simp [quantizeColumn, quantizeValue, hcs]⟩

theorem quantizeColumn_noNan_ok (allowNans : Bool) (nanMode : ENanMode)
    (borders : List Int) :
    ∀ vals : List FloatV, none ∉ vals →
    ∃ cs, quantizeColumn allowNans nanMode borders vals = Except.ok cs := by
  intro vals
  induction vals with
  | nil => exact fun _ => ⟨[], rfl⟩
  | cons v vs ih =>
    intro hmem
    obtain ⟨cs, hcs⟩ := ih (fun h => hmem (List.mem_cons_of_mem _ h))
    cases v with
    | none => exact absurd (List.mem_cons_self _ _) hmem
    | some b =>
      exact ⟨borders.countP (fun t => decide (t ≤ b.key)) :: cs,
        by simp [quantizeColumn, quantizeValue, hcs]⟩

theorem quantizeColumn_forbidden_nan_err (nanMode : ENanMode) (borders : List Int) :
    ∀ vals : List FloatV, none ∈ vals →
    quantizeColumn false nanMode borders vals = Except.error QErr.invalidConfiguration := by
  intro vals
  induction vals with
  | nil => intro h; cases h
  | cons v vs ih =>
    intro hmem
    cases v with
    | none => simp [quantizeColumn, quantizeValue]
    | some b =>
      have hvs : none ∈ vs := by
        rcases List.mem_cons.mp hmem with h | h
        · cases h
        · exact h
      simp [quantizeColumn, quantizeValue, ih hvs]

/-- Reduction of ProcessFloatFeature when the metadata already stores
a Forbidden NaN mode together with borders, under the CPU-compatible
format: the call goes straight to the quantizer. -/
theorem processFloatFeature_stored (bestSplit : List BFloat → Nat → List BFloat)
    (binOpts : TBinarizationOptions) (clearSrcData flag : Bool) (bs : List Int)
    (subsetVals srcVals : List FloatV) :
    processFloatFeature bestSplit binOpts true clearSrcData
        ⟨some ENanMode.Forbidden, some bs, flag⟩ subsetVals srcVals =
      match quantizeColumn flag ENanMode.Forbidden bs srcVals with
      | Except.error e => Except.error e
      | Except.ok codes =>
        Except.ok (QFloatHolder.quantized 8 codes,
          ⟨some ENanMode.Forbidden, some bs, flag⟩) := by
  cases hq : quantizeColumn flag ENanMode.Forbidden bs srcVals with
  | error e =>
    simp [processFloatFeature, floatBordersStep, writeBackInfo, hq]
  | ok codes =>
    simp [processFloatFeature, floatBordersStep, writeBackInfo, hq]

/-! ### Claim theorems for per-feature processing -/

/-- C5: a presence mismatch between the stored NaN mode and the stored
border list makes ProcessFloatFeature fail right away with the
internal-consistency error kind (CB_ENSURE_INTERNAL), which is
distinct from the user-facing configuration error kind. -/
theorem c5_presence_invariant (bestSplit : List BFloat → Nat → List BFloat)
    (binOpts : TBinarizationOptions) (cpuCompatibleFormat clearSrcData : Bool)
    (info : TQuantizedFeaturesInfoEntry) (subsetVals srcVals : List FloatV) :
    (info.nanModeOpt.isNone ≠ info.bordersOpt.isNone →
      processFloatFeature bestSplit binOpts cpuCompatibleFormat clearSrcData info
        subsetVals srcVals = Except.error QErr.internalConsistency)
    ∧ QErr.internalConsistency ≠ QErr.invalidConfiguration := by
  constructor
  · intro h
    unfold processFloatFeature
    rw [if_neg h]
  · decide

/-- Witness for C5 at a concrete input: a stored NaN mode without
stored borders trips the internal-consistency check. -/
theorem c5_presence_invariant_witness :
    processFloatFeature (fun _ _ => []) ⟨ENanMode.Forbidden, 1⟩ true true
        ⟨some ENanMode.Min, none, false⟩ [] [] = Except.error QErr.internalConsistency
    ∧ QErr.internalConsistency ≠ QErr.invalidConfiguration :=
  ⟨(c5_presence_invariant (fun _ _ => []) ⟨ENanMode.Forbidden, 1⟩ true true
      ⟨some ENanMode.Min, none, false⟩ [] []).1 (by decide),
   (c5_presence_invariant (fun _ _ => []) ⟨ENanMode.Forbidden, 1⟩ true true
      ⟨some ENanMode.Min, none, false⟩ [] []).2⟩

/-- C4: a successfully produced float feature holder is the external
lazy view exactly when the CPU-compatible format is not requested and
the source is not being destroyed, and otherwise is a materialized
8-bit compressed array; the categorical holder likewise, with 32-bit
codes. -/
theorem c4_holder_variant (bestSplit : List BFloat → Nat → List BFloat)
    (binOpts : TBinarizationOptions) (cpu clear : Bool)
    (info : TQuantizedFeaturesInfoEntry) (subsetVals srcVals : List FloatV)
    (tbl catVals : List Nat) :
    (∀ h i, processFloatFeature bestSplit binOpts cpu clear info subsetVals srcVals =
        Except.ok (h, i) →
      ((h = QFloatHolder.external ↔ cpu = false ∧ clear = false)
        ∧ (¬(cpu = false ∧ clear = false) →
            ∃ codes, h = QFloatHolder.quantized 8 codes)))
    ∧ (((processCatFeature cpu clear tbl catVals).1 = QCatHolder.external ↔
          cpu = false ∧ clear = false)
        ∧ (¬(cpu = false ∧ clear = false) →
            ∃ codes, (processCatFeature cpu clear tbl catVals).1 =
              QCatHolder.quantized 32 codes)) := by
  constructor
  · intro h i hok
    unfold processFloatFeature at hok
    split at hok
    case isFalse => cases hok
    case isTrue hinv =>
      split at hok
      case h_1 => cases hok
      case h_2 nanMode borders fresh heq =>
        split at hok
        case isTrue hext =>
          injection hok with hpair
          rw [Prod.mk.injEq] at hpair
          obtain ⟨h1, _⟩ := hpair
          subst h1
          have hb : cpu = false ∧ clear = false := by
            cases cpu <;> cases clear <;> simp_all
          exact ⟨iff_of_true rfl hb, fun hc => absurd hb hc⟩
        case isFalse hext =>
          split at hok
          case h_1 => cases hok
          case h_2 codes hq =>
            injection hok with hpair
            rw [Prod.mk.injEq] at hpair
            obtain ⟨h1, _⟩ := hpair
            subst h1
            have hb : ¬(cpu = false ∧ clear = false) := by
              intro hc
              rw [hc.1, hc.2] at hext
              simp at hext
            refine ⟨⟨fun habs => ?_, fun hc => absurd hc hb⟩, fun _ => ⟨codes, rfl⟩⟩
            simp at habs
  · unfold processCatFeature
    split
    case isTrue hext =>
      have hb : cpu = false ∧ clear = false := by
        cases cpu <;> cases clear <;> simp_all
      exact ⟨iff_of_true rfl hb, fun hc => absurd hb hc⟩
    case isFalse hext =>
      have hb : ¬(cpu = false ∧ clear = false) := by
        intro hc
        rw [hc.1, hc.2] at hext
        simp at hext
      refine ⟨⟨fun habs => ?_, fun hc => absurd hc hb⟩, fun _ => ⟨_, rfl⟩⟩
      simp at habs

/-- Witness for C4 at a concrete input: under the CPU-compatible
format both holders are materialized compressed arrays with 8-bit and
32-bit codes respectively. -/
theorem c4_holder_variant_witness :
    ((QFloatHolder.quantized 8 [1] = QFloatHolder.external ↔
        (true : Bool) = false ∧ (false : Bool) = false)
      ∧ (¬((true : Bool) = false ∧ (false : Bool) = false) →
          ∃ codes, QFloatHolder.quantized 8 [1] = QFloatHolder.quantized 8 codes))
    ∧ (((processCatFeature true false [] [7]).1 = QCatHolder.external ↔
          (true : Bool) = false ∧ (false : Bool) = false)
        ∧ (¬((true : Bool) = false ∧ (false : Bool) = false) →
            ∃ codes, (processCatFeature true false [] [7]).1 =
              QCatHolder.quantized 32 codes)) :=
  ⟨(c4_holder_variant (fun _ _ => []) ⟨ENanMode.Forbidden, 1⟩ true false
      ⟨some ENanMode.Forbidden, some [0], true⟩ [] [some (BFloat.fin 1)] [] [7]).1
      (QFloatHolder.quantized 8 [1]) ⟨some ENanMode.Forbidden, some [0], true⟩ (by rfl),
   (c4_holder_variant (fun _ _ => []) ⟨ENanMode.Forbidden, 1⟩ true false
      ⟨some ENanMode.Forbidden, some [0], true⟩ [] [some (BFloat.fin 1)] [] [7]).2⟩

/-- C9: with a stored Forbidden NaN mode, bucket materialization under
the CPU-compatible format allows NaNs whenever the
FloatFeaturesAllowNansInTestOnly flag is set (the call succeeds), and
fails with the user-facing configuration error exactly when the flag
is unset and a NaN is present in the column. -/
theorem c9_allow_nans_in_test_only (bestSplit : List BFloat → Nat → List BFloat)
    (binOpts : TBinarizationOptions) (clearSrcData : Bool) (bs : List Int)
    (subsetVals srcVals : List FloatV) :
    (∃ r, processFloatFeature bestSplit binOpts true clearSrcData
        ⟨some ENanMode.Forbidden, some bs, true⟩ subsetVals srcVals = Except.ok r)
    ∧ (processFloatFeature bestSplit binOpts true clearSrcData
        ⟨some ENanMode.Forbidden, some bs, false⟩ subsetVals srcVals =
          Except.error QErr.invalidConfiguration ↔ none ∈ srcVals) := by
  constructor
  · obtain ⟨cs, hcs⟩ := quantizeColumn_allowNans_ok ENanMode.Forbidden bs srcVals
    exact ⟨(QFloatHolder.quantized 8 cs, ⟨some ENanMode.Forbidden, some bs, true⟩),
      by rw [processFloatFeature_stored, hcs]⟩
  · rw [processFloatFeature_stored]
    constructor
    · intro herr
      by_contra hmem
      obtain ⟨cs, hok⟩ := quantizeColumn_noNan_ok false ENanMode.Forbidden bs srcVals hmem
      rw [hok] at herr
      cases herr
    · intro hmem
      rw [quantizeColumn_forbidden_nan_err ENanMode.Forbidden bs srcVals hmem]

/-- Witness for C9 at a concrete input: the single-NaN column under a
stored Forbidden mode succeeds when the test-only flag is set, and
fails with the user-facing error exactly because a NaN is present when
the flag is unset. -/
theorem c9_allow_nans_in_test_only_witness :
    (∃ r, processFloatFeature (fun _ _ => []) ⟨ENanMode.Min, 1⟩ true false
        ⟨some ENanMode.Forbidden, some [0], true⟩ [] [none] = Except.ok r)
    ∧ (processFloatFeature (fun _ _ => []) ⟨ENanMode.Min, 1⟩ true false
        ⟨some ENanMode.Forbidden, some [0], false⟩ [] [none] =
          Except.error QErr.invalidConfiguration ↔ none ∈ ([none] : List FloatV)) :=
  c9_allow_nans_in_test_only (fun _ _ => []) ⟨ENanMode.Min, 1⟩ false [0] [] [none]

/-! ### The top-level quantize operation (TQuantizationImpl::Do) -/

/-- Two to the 64th, the modulus of ui64 arithmetic. -/
def U64 : Nat := 18446744073709551616

/-- ui64 subtraction as used for the executor budget
(options.CpuRamLimit - cpuRamUsage): wraps modulo 2^64. -/
def sub64 (a b : Nat) : Nat :=
  (a + (U64 - b % U64)) % U64

/-- Quantization options relevant to this translation unit. -/
structure TQuantizationOptions where
  cpuCompatibleFormat : Bool
  gpuCompatibleFormat : Bool
  cpuRamLimit : Nat

/-- Observable outcome of the Do operation: whether the RAM-limit
warning fired, the budget handed to the resource-constrained executor,
and the per-feature holders. -/
structure DoResult where
  warnedRamLimit : Bool
  executorBudget : Nat
  floatHolders : List QFloatHolder
  catHolders : List QCatHolder
deriving DecidableEq

/-- Applies the border-build subset indexing (when present) to a
column of logically-ordered values. -/
def applySubset (idx : Option (List Nat)) (col : List FloatV) : List FloatV :=
  match idx with
  | none => col
  | some is => is.map (fun i => col.getD i none)

/-- Sequential processing of all float-feature tasks; the first fatal
error aborts the whole operation. -/
def processFloatColumns (bestSplit : List BFloat → Nat → List BFloat)
    (binOpts : TBinarizationOptions) (cpu clear : Bool) (subsetIdx : Option (List Nat)) :
    List (TQuantizedFeaturesInfoEntry × List FloatV) → Except QErr (List QFloatHolder)
  | [] => Except.ok []
  | (info, col) :: rest =>
    match processFloatFeature bestSplit binOpts cpu clear info
        (applySubset subsetIdx col) col with
    | Except.error e => Except.error e
    | Except.ok r =>
      match processFloatColumns bestSplit binOpts cpu clear subsetIdx rest with
      | Except.error e => Except.error e
      | Except.ok hs => Except.ok (r.1 :: hs)

/-- Sequential processing of all categorical-feature tasks. -/
def processCatColumns (cpu clear : Bool) : List (List Nat × List Nat) → List QCatHolder
  | [] => []
  | (tbl, col) :: rest =>
    (processCatFeature cpu clear tbl col).1 :: processCatColumns cpu clear rest

/-- The body of TQuantizationImpl::Do after the format check: computes
clearSrcData from the reference count, the RAM warning and the
executor budget, and processes every feature. -/
def quantizeDoBody (bestSplit : List BFloat → Nat → List BFloat)
    (binOpts : TBinarizationOptions) (qopts : TQuantizationOptions)
    (refCount rss : Nat) (subsetIdx : Option (List Nat))
    (floatFeatures : List (TQuantizedFeaturesInfoEntry × List FloatV))
    (catFeatures : List (List Nat × List Nat)) : Except QErr DoResult :=
  match processFloatColumns bestSplit binOpts qopts.cpuCompatibleFormat (refCount == 1)
      subsetIdx floatFeatures with
  | Except.error e => Except.error e
  | Except.ok fh =>
    Except.ok ⟨decide (qopts.cpuRamLimit < rss), sub64 qopts.cpuRamLimit rss, fh,
      processCatColumns qopts.cpuCompatibleFormat (refCount == 1) catFeatures⟩

/-- TQuantizationImpl::Do: the output-format check comes first
(CB_ENSURE_INTERNAL), before any feature processing. -/
def quantizeDo (bestSplit : List BFloat → Nat → List BFloat)
    (binOpts : TBinarizationOptions) (qopts : TQuantizationOptions)
    (refCount rss : Nat) (subsetIdx : Option (List Nat))
    (floatFeatures : List (TQuantizedFeaturesInfoEntry × List FloatV))
    (catFeatures : List (List Nat × List Nat)) : Except QErr DoResult :=
  if qopts.cpuCompatibleFormat || qopts.gpuCompatibleFormat then
    quantizeDoBody bestSplit binOpts qopts refCount rss subsetIdx floatFeatures catFeatures
  else
    Except.error QErr.internalConsistency

/-- C7 counterexample: with both format flags unset, Do fails with the
internal-consistency error kind (CB_ENSURE_INTERNAL), not with the
user-facing InvalidConfiguration kind the claim names. -/
theorem c7_format_flags_counterexample :
    quantizeDo (fun _ _ => []) ⟨ENanMode.Forbidden, 1⟩ ⟨false, false, 0⟩ 1 0 none [] [] =
      Except.error QErr.internalConsistency
    ∧ quantizeDo (fun _ _ => []) ⟨ENanMode.Forbidden, 1⟩ ⟨false, false, 0⟩ 1 0 none [] [] ≠
      Except.error QErr.invalidConfiguration := by
  constructor
  · rfl
  · intro h
    have h0 : quantizeDo (fun _ _ => []) ⟨ENanMode.Forbidden, 1⟩ ⟨false, false, 0⟩ 1 0
        none [] [] = Except.error QErr.internalConsistency := rfl
    rw [h0] at h
    injection h with h1
    cases h1

/-- C7 as amended: if neither format flag is set, Do fails before any
feature processing with the internal-consistency error kind; if at
least one flag is set, the check passes and Do proceeds to its body. -/
theorem c7_format_flags_check (bestSplit : List BFloat → Nat → List BFloat)
    (binOpts : TBinarizationOptions) (qopts : TQuantizationOptions)
    (refCount rss : Nat) (subsetIdx : Option (List Nat))
    (floatFeatures : List (TQuantizedFeaturesInfoEntry × List FloatV))
    (catFeatures : List (List Nat × List Nat)) :
    (qopts.cpuCompatibleFormat = false → qopts.gpuCompatibleFormat = false →
      quantizeDo bestSplit binOpts qopts refCount rss subsetIdx floatFeatures catFeatures =
        Except.error QErr.internalConsistency)
    ∧ ((qopts.cpuCompatibleFormat || qopts.gpuCompatibleFormat) = true →
      quantizeDo bestSplit binOpts qopts refCount rss subsetIdx floatFeatures catFeatures =
        quantizeDoBody bestSplit binOpts qopts refCount rss subsetIdx floatFeatures
          catFeatures) := by
  constructor
  · intro h1 h2
    simp [quantizeDo, h1, h2]
  · intro h
    unfold quantizeDo
    rw [if_pos h]

/-- Witness for the amended C7 at a concrete input: both flags unset
yields the internal-consistency error. -/
theorem c7_format_flags_check_witness :
    quantizeDo (fun _ _ => []) ⟨ENanMode.Forbidden, 1⟩ ⟨false, false, 7⟩ 1 0 none [] [] =
      Except.error QErr.internalConsistency :=
  (c7_format_flags_check (fun _ _ => []) ⟨ENanMode.Forbidden, 1⟩ ⟨false, false, 7⟩ 1 0
    none [] []).1 rfl rfl

/-- C10: the executor budget is the ui64 wrap-around difference
CpuRamLimit - RSS: it is the plain difference when RSS fits under the
limit, and wraps to the near-maximal 2^64 - (RSS - limit) when
resident memory already exceeds the limit, in which case only the
warning flag is set and the operation proceeds. -/
theorem c10_budget_wraparound (limit rss : Nat)
    (bestSplit : List BFloat → Nat → List BFloat) (binOpts : TBinarizationOptions)
    (cpu gpu : Bool) (refCount : Nat) (subsetIdx : Option (List Nat))
    (floatFeatures : List (TQuantizedFeaturesInfoEntry × List FloatV))
    (catFeatures : List (List Nat × List Nat))
    (h1 : limit < U64) (h2 : rss < U64) :
    U64 = 2 ^ 64
    ∧ sub64 limit rss = (limit + (U64 - rss)) % U64
    ∧ (rss ≤ limit → sub64 limit rss = limit - rss)
    ∧ (limit < rss → sub64 limit rss = U64 - (rss - limit) ∧ 0 < sub64 limit rss)
    ∧ (∀ r : DoResult,
        quantizeDoBody bestSplit binOpts ⟨cpu, gpu, limit⟩ refCount rss subsetIdx
          floatFeatures catFeatures = Except.ok r →
        r.executorBudget = sub64 limit rss ∧ r.warnedRamLimit = decide (limit < rss)) := by
  refine ⟨by norm_num [U64], ?_, ?_, ?_, ?_⟩
  · simp only [sub64, U64] at h2 ⊢
    omega
  · intro h
    simp only [sub64, U64] at h1 h2 ⊢
    omega
  · intro h
    simp only [sub64, U64] at h1 h2 ⊢
    omega
  · intro r hok
    unfold quantizeDoBody at hok
    split at hok
    case h_1 => cases hok
    case h_2 fh heq =>
      injection hok with h'
      subst h'
      exact ⟨rfl, rfl⟩

/-- Witness for C10 at a concrete input: limit 100 with resident
memory 101 wraps the budget to 2^64 - 1 and sets the warning. -/
theorem c10_budget_wraparound_witness :
    U64 = 2 ^ 64
    ∧ sub64 100 101 = (100 + (U64 - 101)) % U64
    ∧ ((101 : Nat) ≤ 100 → sub64 100 101 = 100 - 101)
    ∧ ((100 : Nat) < 101 → sub64 100 101 = U64 - (101 - 100) ∧ 0 < sub64 100 101)
    ∧ (∀ r : DoResult,
        quantizeDoBody (fun _ _ => []) ⟨ENanMode.Forbidden, 1⟩ ⟨true, false, 100⟩ 1 101
          none [] [] = Except.ok r →
        r.executorBudget = sub64 100 101 ∧ r.warnedRamLimit = decide ((100 : Nat) < 101)) :=
  c10_budget_wraparound 100 101 (fun _ _ => []) ⟨ENanMode.Forbidden, 1⟩ true false 1
    none [] [] (by decide) (by decide)

/-! ### The memory-budgeted scheduler (TResourceConstrainedExecutor) -/

/-- Modelled from the spec: greedy admission of tasks into the current
batch of TResourceConstrainedExecutor (its implementation lives in
catboost/libs/helpers, not under src).  `acc` is the memory already
committed to in-flight tasks; a task is admitted while the in-flight
sum stays within the budget. -/
def takeGreedy (budget : Nat) : Nat → List Nat → List Nat × List Nat
  | _, [] => ([], [])
  | acc, t :: rest =>
    if acc + t ≤ budget then
      (t :: (takeGreedy budget (acc + t) rest).1, (takeGreedy budget (acc + t) rest).2)
    else
      ([], t :: rest)

theorem takeGreedy_append (budget : Nat) :
    ∀ (acc : Nat) (l : List Nat),
      (takeGreedy budget acc l).1 ++ (takeGreedy budget acc l).2 = l := by
  intro acc l
  induction l generalizing acc with
  | nil => rfl
  | cons t rest ih =>
    by_cases h : acc + t ≤ budget
    · simp [takeGreedy, h, ih]
    · simp [takeGreedy, h]

theorem takeGreedy_snd_length (budget acc : Nat) (l : List Nat) :
    (takeGreedy budget acc l).2.length ≤ l.length := by
  have h := congrArg List.length (takeGreedy_append budget acc l)
  rw [List.length_append] at h
  omega

theorem takeGreedy_sum (budget : Nat) :
    ∀ (acc : Nat) (l : List Nat), acc ≤ budget →
      acc + ((takeGreedy budget acc l).1).sum ≤ budget := by
  intro acc l
  induction l generalizing acc with
  | nil =>
    intro h
    simpa [takeGreedy] using h
  | cons t rest ih =>
    intro h
    by_cases hc : acc + t ≤ budget
    · have hrec := ih (acc + t) hc
      simp only [takeGreedy, if_pos hc, List.sum_cons]
      omega
    · simp only [takeGreedy, if_neg hc, List.sum_nil]
      omega

theorem takeGreedy_oversized (budget acc : Nat) (l : List Nat) (h : budget < acc) :
    (takeGreedy budget acc l).1 = [] := by
  cases l with
  | nil => rfl
  | cons t rest =>
    have hc : ¬(acc + t ≤ budget) := by omega
    simp [takeGreedy, hc]

/-- Modelled from the spec: the batch structure of the scheduler run.
Tasks are admitted in arrival order while the sum of in-flight
estimates stays within the budget; a task whose estimate alone exceeds
the budget still runs, alone. -/
def scheduleBatches (budget : Nat) : List Nat → List (List Nat)
  | [] => []
  | t :: rest =>
    (t :: (takeGreedy budget t rest).1) ::
      scheduleBatches budget (takeGreedy budget t rest).2
termination_by l => l.length
decreasing_by
  simp only [List.length_cons]
  exact Nat.lt_succ_of_le (takeGreedy_snd_length budget t rest)

/-- C8: in every batch of the scheduler run, either the sum of the
in-flight memory estimates stays within the budget, or the batch is a
single task whose estimate alone exceeds the whole budget; and every
registered task runs in some batch (oversized tasks are not starved),
in arrival order. -/
theorem c8_scheduler_budget (budget : Nat) (tasks : List Nat) :
    (∀ batch ∈ scheduleBatches budget tasks,
      batch.sum ≤ budget ∨ ∃ t, batch = [t] ∧ budget < t)
    ∧ (scheduleBatches budget tasks).flatten = tasks := by
  have main : ∀ (n : Nat) (ts : List Nat), ts.length ≤ n →
      (∀ batch ∈ scheduleBatches budget ts,
        batch.sum ≤ budget ∨ ∃ t, batch = [t] ∧ budget < t)
      ∧ (scheduleBatches budget ts).flatten = ts := by
    intro n
    induction n with
    | zero =>
      intro ts hts
      have : ts = [] := List.length_eq_zero.mp (Nat.le_zero.mp hts)
      subst this
      exact ⟨fun batch hb => absurd hb (by simp [scheduleBatches]), by simp [scheduleBatches]⟩
    | succ n ih =>
      intro ts hts
      cases ts with
      | nil =>
        exact ⟨fun batch hb => absurd hb (by simp [scheduleBatches]), by simp [scheduleBatches]⟩
      | cons t rest =>
        have hrest : (takeGreedy budget t rest).2.length ≤ n := by
          have := takeGreedy_snd_length budget t rest
          simp only [List.length_cons] at hts
          omega
        obtain ⟨ih1, ih2⟩ := ih _ hrest
        constructor
        · intro batch hb
          rw [scheduleBatches] at hb
          rcases List.mem_cons.mp hb with rfl | hb
          · by_cases hc : t ≤ budget
            · left
              have := takeGreedy_sum budget t rest hc
              simp only [List.sum_cons]
              omega
            · right
              refine ⟨t, ?_, by omega⟩
              rw [takeGreedy_oversized budget t rest (by omega)]
          · exact ih1 batch hb
        · rw [scheduleBatches, List.flatten_cons, ih2, List.cons_append,
            takeGreedy_append]
  exact main tasks.length tasks (Nat.le_refl _)

/-- Witness for C8 at a concrete input: budget 10 over estimates
[4, 5, 20, 3], where 20 alone exceeds the budget. -/
theorem c8_scheduler_budget_witness :
    (∀ batch ∈ scheduleBatches 10 [4, 5, 20, 3],
      batch.sum ≤ 10 ∨ ∃ t, batch = [t] ∧ 10 < t)
    ∧ (scheduleBatches 10 [4, 5, 20, 3]).flatten = [4, 5, 20, 3] :=
  c8_scheduler_budget 10 [4, 5, 20, 3]

end CatBoostQ
